import Mathlib

set_option linter.unusedSectionVars false

/-!
Verification of the INHOUSE SoundLab procedural-audio core
(src/inhouse_soundlab/app.py).

The embedding models the pipeline's arithmetic exactly (a rational or real
field in place of IEEE floats):

* the WAV encoder `_write_wav` and the sample-conforming step are stated
  polymorphically over a `LinearOrderedField` with a `FloorRing`, so that
  the very same definitions are executable (and `decide`-able) at `ℚ` and
  instantiable at `ℝ`;
* the synthesis path (`np.sin`, `np.exp`, `2 ** x`) is stated over `ℝ`;
* Python/numpy exceptions (`np.max` of an empty array, `np.interp` with an
  empty coordinate array, `int(...)` on a string outside its integer grammar, a missing
  sample, `np.concatenate([])`) are modelled as `none`; an operation whose
  numpy result is NaN-poisoned (division by a zero peak, whose later
  `np.int16` cast is undefined behaviour) is likewise modelled as `none`,
  there being no defined value to return;
* `np.random.uniform` draws are modelled by an explicit noise-stream
  argument `rng`, indexed by (segment index, sample index).
-/

namespace SoundLab

section FieldDefs

variable {α : Type} [LinearOrderedField α] [FloorRing α]

/-- Embeds `np.max(np.abs(samples))` for the nonempty buffers the encoder
divides by: a left fold of `max` over the absolute values, started at `0`
(for a nonempty list of absolute values this equals numpy's maximum, every
absolute value being nonnegative; the empty case, where `np.max` raises
`ValueError`, is kept out of this definition and handled by the caller). -/
def maxAbs (l : List α) : α := l.foldl (fun m s => max m |s|) 0

/-- The C-style float-to-integer cast `np.int16` applies to an in-range
value: truncation toward zero. -/
def truncToZero (q : α) : ℤ := if 0 ≤ q then ⌊q⌋ else ⌈q⌉

/-- Reduction of an integer into signed 16-bit range, as `np.int16`
wraps modulo `2^16`. -/
def toInt16 (z : ℤ) : ℤ := (z + 32768) % 65536 - 32768

/-- Embeds `np.int16(samples / np.max(np.abs(samples)) * 32767)` from
`_write_wav` (src/inhouse_soundlab/app.py line 105). `none` models the two
degenerate cases: the empty buffer (`np.max` raises `ValueError`) and a
zero peak (`samples / 0` is a NaN array and its `np.int16` cast has no
defined value). -/
def encodePcm (samples : List α) : Option (List ℤ) :=
  if samples = [] then none
  else if maxAbs samples = 0 then none
  else some (samples.map fun s => toInt16 (truncToZero (s / maxAbs samples * 32767)))

/-- A natural number as two little-endian bytes. -/
def le2 (n : ℕ) : List ℕ := [n % 256, n / 256 % 256]

/-- A natural number as four little-endian bytes. -/
def le4 (n : ℕ) : List ℕ := [n % 256, n / 256 % 256, n / 65536 % 256, n / 16777216 % 256]

/-- A 16-bit signed sample as two little-endian two's-complement bytes,
as `samples_int16.tobytes()` lays it out. -/
def int16le (z : ℤ) : List ℕ := le2 (z % 65536).toNat

/-- The 44-byte RIFF/WAVE header Python's `wave` module emits for mono
16-bit PCM: `RIFF`, chunk size, `WAVE`, the 16-byte `fmt ` chunk declaring
1 channel, 16 bits, the sample rate, byte rate and block align, then
`data` and the payload size. -/
def wavHeader (sampleRate dataLen : ℕ) : List ℕ :=
  [82, 73, 70, 70] ++ le4 (36 + dataLen) ++ [87, 65, 86, 69] ++
  [102, 109, 116, 32] ++ le4 16 ++ le2 1 ++ le2 1 ++ le4 sampleRate ++
  le4 (2 * sampleRate) ++ le2 2 ++ le2 16 ++ [100, 97, 116, 97] ++ le4 dataLen

/-- Embeds `_write_wav` (src/inhouse_soundlab/app.py lines 104-113):
peak-normalize and quantize the buffer, then serialize as a mono 16-bit
little-endian WAV byte string. -/
def _write_wav (samples : List α) (sampleRate : ℕ) : Option (List ℕ) :=
  (encodePcm samples).map fun pcm =>
    wavHeader sampleRate (2 * pcm.length) ++ (pcm.map int16le).flatten

/-- `np.linspace(a, b, n)` with the default `endpoint=True`:
`n` evenly spaced values from `a` to `b` inclusive. -/
def linspaceEnd (a b : α) (n : ℕ) : List α :=
  if n ≤ 1 then List.replicate n a
  else (List.range n).map fun i : ℕ => a + (b - a) * (i : α) / ((n : α) - 1)

/-- `np.linspace(a, b, n, endpoint=False)`: `n` values stepping by
`(b - a) / n` from `a`. -/
def linspaceNoEnd (a b : α) (n : ℕ) : List α :=
  (List.range n).map fun i : ℕ => a + (b - a) * (i : α) / (n : α)

/-- One query of `np.interp` against the sorted coordinate/value pairs:
clamp to the end values outside the range, linear interpolation between
neighbouring coordinates inside it. -/
def interpPts (x : α) : List (α × α) → α
  | [] => 0
  | [p] => p.2
  | p :: q :: rest =>
    if x ≤ p.1 then p.2
    else if x ≤ q.1 then p.2 + (q.2 - p.2) * (x - p.1) / (q.1 - p.1)
    else interpPts x (q :: rest)

/-- `np.interp(x_new, x_old, ys)`: one interpolated value per query point. -/
def interp (xnew xold ys : List α) : List α := xnew.map fun x => interpPts x (xold.zip ys)

/-- The resampling branch of `generate_drum_audio` (lines 140-144):
`np.interp(np.linspace(0, len(data), target_len), np.linspace(0, len(data),
len(data)), data)`. -/
def resampleLinear (data : List α) (targetLen : ℕ) : List α :=
  interp (linspaceEnd 0 (data.length : α) targetLen)
    (linspaceEnd 0 (data.length : α) data.length) data

/-- The trim-or-pad step of `generate_drum_audio` (lines 145-149):
slice to the target length when longer, zero-pad at the end when shorter. -/
def padTrim (d : List α) (targetLen : ℕ) : List α :=
  if targetLen < d.length then d.take targetLen
  else d ++ List.replicate (targetLen - d.length) 0

/-- Embeds the conforming step of `generate_drum_audio`
(src/inhouse_soundlab/app.py lines 139-150): when the source rate differs
from the target rate, resample by linear interpolation, then trim or pad
to the beat length. -/
def conform (data : List α) (sr sampleRate targetLen : ℕ) : List α :=
  padTrim (if sr ≠ sampleRate then resampleLinear data targetLen else data) targetLen

/-- The clamp to `[-1, 1]` named by the spec's quantization formula. -/
def clampUnit (q : α) : α := max (-1) (min 1 q)

/-- Modelled from the spec (§4.5), for comparison with `encodePcm`: the
quantization the spec claims, `pcm16[i] = round(clamp(sample[i]/peak,
-1, 1) * 32767)`, with a zero peak emitting all-zero PCM and no failure. -/
def encodePcmSpec (samples : List α) : Option (List ℤ) :=
  if maxAbs samples = 0 then some (samples.map fun _ => 0)
  else some (samples.map fun s => round (clampUnit (s / maxAbs samples) * 32767))

end FieldDefs

section NoteParsing

/-- The semitone table of `_note_to_frequency`
(src/inhouse_soundlab/app.py line 82); `none` is the `KeyError` raised on
a letter outside the table. -/
def note_map : Char → Option ℤ
  | 'C' => some 0
  | 'D' => some 2
  | 'E' => some 4
  | 'F' => some 5
  | 'G' => some 7
  | 'A' => some 9
  | 'B' => some 11
  | _ => none

/-- The character loop of `_note_to_frequency` (lines 85-90): each `♯` or
`♭` overwrites the accidental, every other character is appended to the
octave part. -/
def splitAccOct (rest : List Char) : Option Char × List Char :=
  rest.foldl
    (fun st ch => if ch = '♯' ∨ ch = '♭' then (some ch, st.2) else (st.1, st.2 ++ [ch]))
    (none, [])

/-- The whitespace characters Python's `int()` strips, restricted to
ASCII (space, tab, newline, carriage return, vertical tab, form feed). -/
def isPySpace (c : Char) : Bool :=
  c = ' ' || c = '\t' || c = '\n' || c = '\r' || c = '\x0b' || c = '\x0c'

/-- Strip the whitespace `int()` ignores from both ends. -/
def stripSpaces (l : List Char) : List Char :=
  ((l.dropWhile isPySpace).reverse.dropWhile isPySpace).reverse

/-- The digit run of `int()`'s base-10 grammar, continued after a first
digit already read into `acc`: further digits, with single underscores
allowed between digits only (`1_2` is 12; `1__2`, `1_` fail). -/
def digitsUSCore : ℕ → List Char → Option ℕ
  | acc, [] => some acc
  | acc, c :: rest =>
    if c = '_' then
      match rest with
      | [] => none
      | c2 :: rest2 =>
        if c2.isDigit then digitsUSCore (10 * acc + (c2.toNat - 48)) rest2 else none
    else if c.isDigit then digitsUSCore (10 * acc + (c.toNat - 48)) rest else none

/-- A nonempty underscore-grouped digit run, which must start with a
digit (`_1` fails). -/
def digitsUS : List Char → Option ℕ
  | [] => none
  | c :: rest => if c.isDigit then digitsUSCore (c.toNat - 48) rest else none

/-- Python's `int()` on the collected octave characters (base 10):
surrounding whitespace is stripped, then one optional sign, then a
nonempty underscore-grouped digit run; anything else raises `ValueError`
(`none`). This model is exact on ASCII strings; `int()` additionally
accepts Unicode decimal digits and Unicode spaces, which are outside
this model's domain (the theorems below scope themselves to ASCII octave
parts where exactness matters). -/
def pyIntOfChars (ds : List Char) : Option ℤ :=
  match stripSpaces ds with
  | [] => none
  | c :: rest =>
    if c = '+' then (digitsUS rest).map fun n : ℕ => (n : ℤ)
    else if c = '-' then (digitsUS rest).map fun n : ℕ => -(n : ℤ)
    else (digitsUS (c :: rest)).map fun n : ℕ => (n : ℤ)

/-- Embeds `_note_to_frequency` (src/inhouse_soundlab/app.py lines 81-97)
up to the final frequency formula: the signed semitone offset from A4,
`semitone + (octave - 4) * 12 - 9`. `none` models the exceptions: an
empty token (`note[0]` raises `IndexError`), an octave part that
`int()` rejects (`ValueError`), a letter outside `note_map`
(`KeyError`). -/
def parseNote (note : String) : Option ℤ :=
  match note.data with
  | [] => none
  | letter :: rest =>
    let ao := splitAccOct rest
    match (if ao.2 = [] then some (4 : ℤ) else pyIntOfChars ao.2),
        note_map letter with
    | some octave, some s =>
      let s2 := if ao.1 = some '♯' then s + 1 else if ao.1 = some '♭' then s - 1 else s
      some (s2 + (octave - 4) * 12 - 9)
    | _, _ => none

/-- The full `_note_to_frequency`: `440.0 * (2 ** (semitone_offset_from_A4 / 12))`. -/
noncomputable def _note_to_frequency (note : String) : Option ℝ :=
  (parseNote note).map fun d : ℤ => 440 * (2 : ℝ) ^ ((d : ℝ) / 12)

end NoteParsing

section Synthesis

/-- `int(...)` applied to `sample_rate * duration`, then taken as a length
(negative durations, where `np.linspace` would raise, are out of scope). -/
noncomputable def numSamples (sampleRate : ℕ) (duration : ℝ) : ℕ :=
  (truncToZero ((sampleRate : ℝ) * duration)).toNat

/-- Embeds `_generate_sine_wave` (src/inhouse_soundlab/app.py
lines 100-102): `sin(2π f t)` over `np.linspace(0, duration,
int(sample_rate * duration), endpoint=False)` — no envelope. -/
noncomputable def _generate_sine_wave (frequency duration : ℝ) (sampleRate : ℕ) : List ℝ :=
  (linspaceNoEnd 0 duration (numSamples sampleRate duration)).map
    fun ti => Real.sin (2 * Real.pi * frequency * ti)

/-- The `freq_map` dictionary lookup with default 180.0
(src/inhouse_soundlab/app.py lines 157-159). Note the source's key for the
hi-hat class carries U+2011 (non-breaking hyphen), as do the tokens the
app's drum-pattern page produces. -/
noncomputable def freq_map (element : String) : ℝ :=
  if element = "Kick" then 60
  else if element = "Snare" then 180
  else if element = "Hi‑hat" then 300
  else 180

/-- One synthesized drum segment (src/inhouse_soundlab/app.py
lines 160-166): uniform noise for the hi-hat class, a sine at the mapped
frequency otherwise, multiplied pointwise by the envelope `exp(-5 t)`.
`rng i` stands for the i-th `np.random.uniform(-1, 1)` draw of the
segment. -/
noncomputable def drumSynthSegment (rng : ℕ → ℝ) (element : String) (duration : ℝ)
    (sampleRate : ℕ) : List ℝ :=
  List.zipWith (fun u v => u * v)
    (if element = "Hi‑hat" then (List.range (numSamples sampleRate duration)).map rng
     else (linspaceNoEnd 0 duration (numSamples sampleRate duration)).map
       fun ti => Real.sin (2 * Real.pi * freq_map element * ti))
    ((linspaceNoEnd 0 duration (numSamples sampleRate duration)).map
      fun ti => Real.exp (-5 * ti))

/-- The synthesized fallback track: the concatenation, in pattern order,
of the synthesized segments; segment `k` draws its noise from `rng k`. -/
noncomputable def drumSynthTrack (rng : ℕ → ℕ → ℝ) (pattern : List String) (duration : ℝ)
    (sampleRate : ℕ) : List ℝ :=
  (pattern.enum.map fun pe => drumSynthSegment (rng pe.1) pe.2 duration sampleRate).flatten

/-- The sample-collecting loop of `generate_drum_audio`'s `try:` block
(src/inhouse_soundlab/app.py lines 134-151): the first event whose lookup
yields nothing raises (`none`), as does an empty sample needing
resampling (`np.interp` with an empty coordinate array); otherwise every
event's sample is conformed to the beat length. -/
noncomputable def drumTrySegments (lookup : String → Option (List ℝ × ℕ)) (sampleRate targetLen : ℕ) :
    List String → Option (List (List ℝ))
  | [] => some []
  | e :: rest =>
    match lookup e with
    | none => none
    | some (data, sr) =>
      if data.length = 0 ∧ sr ≠ sampleRate then none
      else (drumTrySegments lookup sampleRate targetLen rest).map
        fun segs => conform data sr sampleRate targetLen :: segs

/-- The whole `try:` block: collect and conform all samples, concatenate
(`np.concatenate([])` raises on an empty pattern), and encode; any
exception gives `none`, to be caught by `except: pass`. -/
noncomputable def tryBranch (lookup : String → Option (List ℝ × ℕ)) (pattern : List String)
    (targetLen : ℕ) : Option (List ℕ) :=
  (drumTrySegments lookup 44100 targetLen pattern).bind
    fun segs => if segs = [] then none else _write_wav segs.flatten 44100

/-- Embeds `generate_drum_audio` (src/inhouse_soundlab/app.py
lines 129-168). The module-level sample store and downloader
(`get_sample`) enter as the explicit `lookup`, numpy's global RNG as the
explicit `rng`. If the `try:` block succeeds its bytes are returned;
otherwise every event is synthesized, and an empty pattern then crashes
on `np.concatenate([])` (`none`). -/
noncomputable def generate_drum_audio (lookup : String → Option (List ℝ × ℕ))
    (rng : ℕ → ℕ → ℝ) (pattern : List String) (duration_per_beat : ℝ) : Option (List ℕ) :=
  match tryBranch lookup pattern (numSamples 44100 duration_per_beat) with
  | some b => some b
  | none =>
    if pattern = [] then none
    else _write_wav (drumSynthTrack rng pattern duration_per_beat 44100) 44100

end Synthesis

/-! ### Helper lemmas about the encoder -/

section EncoderLemmas

variable {α : Type} [LinearOrderedField α] [FloorRing α]

lemma foldl_maxAbs_init_le (l : List α) :
    ∀ init : α, init ≤ l.foldl (fun m s => max m |s|) init := by
  induction l with
  | nil => intro init; simp
  | cons a tl ih =>
    intro init
    rw [List.foldl_cons]
    exact le_trans (le_max_left init |a|) (ih _)

lemma mem_le_foldl_maxAbs {a : α} :
    ∀ (l : List α) (init : α), a ∈ l → |a| ≤ l.foldl (fun m s => max m |s|) init := by
  intro l
  induction l with
  | nil => intro init h; cases h
  | cons b tl ih =>
    intro init h
    rw [List.foldl_cons]
    rcases List.mem_cons.1 h with rfl | h2
    · exact le_trans (le_max_right init |a|) (foldl_maxAbs_init_le tl _)
    · exact ih _ h2

lemma le_maxAbs {l : List α} {a : α} (h : a ∈ l) : |a| ≤ maxAbs l :=
  mem_le_foldl_maxAbs l 0 h

lemma maxAbs_nonneg (l : List α) : 0 ≤ maxAbs l := foldl_maxAbs_init_le l 0

lemma maxAbs_pos {l : List α} {a : α} (ha : a ∈ l) (h0 : a ≠ 0) : 0 < maxAbs l :=
  lt_of_lt_of_le (abs_pos.2 h0) (le_maxAbs ha)

lemma foldl_maxAbs_choice :
    ∀ (l : List α) (init : α), l.foldl (fun m s => max m |s|) init = init ∨
      ∃ a ∈ l, l.foldl (fun m s => max m |s|) init = |a| := by
  intro l
  induction l with
  | nil => intro init; left; rfl
  | cons b tl ih =>
    intro init
    rw [List.foldl_cons]
    rcases ih (max init |b|) with h | ⟨a, ha, h⟩
    · rw [h]
      rcases max_choice init |b| with h2 | h2
      · left; exact h2
      · right; exact ⟨b, List.mem_cons_self b tl, h2⟩
    · right; exact ⟨a, List.mem_cons_of_mem _ ha, h⟩

lemma maxAbs_attained {l : List α} (h : l ≠ []) : ∃ a ∈ l, maxAbs l = |a| := by
  rcases foldl_maxAbs_choice l 0 with h0 | h1
  · match l, h with
    | b :: tl, _ =>
      have hb : |b| ≤ maxAbs (b :: tl) := le_maxAbs (List.mem_cons_self b tl)
      unfold maxAbs at hb ⊢
      rw [h0] at hb
      exact ⟨b, List.mem_cons_self b tl, by rw [h0, le_antisymm hb (abs_nonneg b)]⟩
  · exact h1

lemma foldl_maxAbs_le_of (l : List α) :
    ∀ init b : α, init ≤ b → (∀ x ∈ l, |x| ≤ b) →
      l.foldl (fun m s => max m |s|) init ≤ b := by
  induction l with
  | nil => intro init b h1 _; simpa using h1
  | cons a tl ih =>
    intro init b h1 h2
    rw [List.foldl_cons]
    exact ih _ _ (max_le h1 (h2 a (List.mem_cons_self a tl)))
      (fun x hx => h2 x (List.mem_cons_of_mem _ hx))

lemma maxAbs_le {l : List α} {b : α} (hb : 0 ≤ b) (h : ∀ x ∈ l, |x| ≤ b) :
    maxAbs l ≤ b :=
  foldl_maxAbs_le_of l 0 b hb h

lemma foldl_maxAbs_map_mul {c : α} (hc : 0 ≤ c) (l : List α) :
    ∀ init : α, (l.map fun s => c * s).foldl (fun m s => max m |s|) (c * init) =
      c * l.foldl (fun m s => max m |s|) init := by
  induction l with
  | nil => intro init; rfl
  | cons a tl ih =>
    intro init
    rw [List.map_cons, List.foldl_cons, List.foldl_cons]
    have : max (c * init) |c * a| = c * max init |a| := by
      rw [abs_mul, abs_of_nonneg hc, (mul_max_of_nonneg _ _ hc)]
    rw [this, ih]

lemma maxAbs_map_mul {c : α} (hc : 0 ≤ c) (l : List α) :
    maxAbs (l.map fun s => c * s) = c * maxAbs l := by
  have := foldl_maxAbs_map_mul hc l 0
  rw [mul_zero] at this
  simpa [maxAbs] using this

lemma truncToZero_intCast (z : ℤ) : truncToZero ((z : α)) = z := by
  unfold truncToZero
  split
  · exact Int.floor_intCast z
  · exact Int.ceil_intCast z

lemma abs_truncToZero_le {q : α} {b : ℕ} (h : |q| ≤ (b : α)) :
    |truncToZero q| ≤ (b : ℤ) := by
  unfold truncToZero
  rcases abs_le.1 h with ⟨h1, h2⟩
  split
  · rename_i hq
    rw [abs_of_nonneg (Int.floor_nonneg.2 hq)]
    calc ⌊q⌋ ≤ ⌊((b : ℕ) : α)⌋ := Int.floor_le_floor h2
    _ = (b : ℤ) := Int.floor_natCast b
  · rename_i hq
    push_neg at hq
    have hc : ⌈q⌉ ≤ 0 := Int.ceil_le.2 (by exact_mod_cast le_of_lt hq)
    rw [abs_of_nonpos hc]
    have hlow : (-(b : ℤ) : ℤ) ≤ ⌈q⌉ := by
      have hcast : (((-(b : ℤ) : ℤ)) : α) ≤ q := by push_cast; linarith
      calc (-(b : ℤ) : ℤ) = ⌈(((-(b : ℤ) : ℤ)) : α)⌉ := (Int.ceil_intCast _).symm
      _ ≤ ⌈q⌉ := Int.ceil_le_ceil hcast
    omega

lemma toInt16_eq_self {z : ℤ} (h : |z| ≤ 32767) : toInt16 z = z := by
  unfold toInt16
  rcases abs_le.1 h with ⟨h1, h2⟩
  rw [Int.emod_eq_of_lt (by omega) (by omega)]
  omega

lemma maxAbs_ne_zero_nonempty {l : List α} (h : maxAbs l ≠ 0) : l ≠ [] := by
  intro he
  subst he
  exact h rfl

lemma encodePcm_eq {l : List α} (h : maxAbs l ≠ 0) :
    encodePcm l = some (l.map fun s => toInt16 (truncToZero (s / maxAbs l * 32767))) := by
  unfold encodePcm
  rw [if_neg (maxAbs_ne_zero_nonempty h), if_neg h]

lemma encodePcm_some_length {l : List α} {pcm : List ℤ} (h : encodePcm l = some pcm) :
    pcm.length = l.length := by
  unfold encodePcm at h
  by_cases h1 : l = []
  · rw [if_pos h1] at h; cases h
  rw [if_neg h1] at h
  by_cases h2 : maxAbs l = 0
  · rw [if_pos h2] at h; cases h
  rw [if_neg h2] at h
  obtain rfl := Option.some_inj.1 h
  exact (List.length_map _ _).symm ▸ rfl

lemma pcm_val_eq {l : List α} {s : α} (hs : s ∈ l) (h : maxAbs l ≠ 0) :
    toInt16 (truncToZero (s / maxAbs l * 32767)) = truncToZero (s / maxAbs l * 32767) ∧
    |truncToZero (s / maxAbs l * 32767)| ≤ 32767 := by
  have hpos : 0 < maxAbs l := lt_of_le_of_ne (maxAbs_nonneg l) (Ne.symm h)
  have h1 : |s / maxAbs l| ≤ 1 := by
    rw [abs_div, abs_of_pos hpos, div_le_one hpos]
    exact le_maxAbs hs
  have h2 : |s / maxAbs l * 32767| ≤ ((32767 : ℕ) : α) := by
    rw [abs_mul]
    have h32 : |(32767 : α)| = 32767 := abs_of_nonneg (by norm_num)
    rw [h32]
    push_cast
    nlinarith [abs_nonneg (s / maxAbs l)]
  have h3 : |truncToZero (s / maxAbs l * 32767)| ≤ ((32767 : ℕ) : ℤ) := abs_truncToZero_le h2
  have h4 : |truncToZero (s / maxAbs l * 32767)| ≤ (32767 : ℤ) := by exact_mod_cast h3
  exact ⟨toInt16_eq_self h4, h4⟩

lemma length_int16le (z : ℤ) : (int16le z).length = 2 := rfl

lemma length_wavHeader (r d : ℕ) : (wavHeader r d).length = 44 := rfl

lemma length_flatten_map_int16le (pcm : List ℤ) :
    ((pcm.map int16le).flatten).length = 2 * pcm.length := by
  induction pcm with
  | nil => rfl
  | cons z tl ih =>
    rw [List.map_cons, List.flatten_cons, List.length_append, ih, length_int16le,
      List.length_cons]
    omega

lemma length_write_wav {l : List α} {r : ℕ} {bs : List ℕ} (h : _write_wav l r = some bs) :
    bs.length = 44 + 2 * l.length := by
  unfold _write_wav at h
  rcases Option.map_eq_some'.1 h with ⟨pcm, hpcm, hbs⟩
  rw [← hbs, List.length_append, length_wavHeader, length_flatten_map_int16le,
    encodePcm_some_length hpcm]

end EncoderLemmas

/-! ### Helper lemmas about lengths and indexing -/

section LengthLemmas

variable {α : Type} [LinearOrderedField α]

lemma length_linspaceNoEnd (a b : α) (n : ℕ) : (linspaceNoEnd a b n).length = n := by
  simp [linspaceNoEnd]

lemma length_linspaceEnd (a b : α) (n : ℕ) : (linspaceEnd a b n).length = n := by
  unfold linspaceEnd
  split
  · simp
  · simp

lemma length_interp (xnew xold ys : List α) : (interp xnew xold ys).length = xnew.length := by
  simp [interp]

lemma length_resampleLinear (data : List α) (tl : ℕ) :
    (resampleLinear data tl).length = tl := by
  rw [resampleLinear, length_interp, length_linspaceEnd]

lemma length_padTrim (d : List α) (tl : ℕ) : (padTrim d tl).length = tl := by
  unfold padTrim
  split
  · rename_i hlt
    rw [List.length_take]
    omega
  · rename_i hge
    rw [List.length_append, List.length_replicate]
    omega

lemma length_conform (data : List α) (sr rate tl : ℕ) :
    (conform data sr rate tl).length = tl := by
  rw [conform, length_padTrim]

lemma getElem_linspaceNoEnd (a b : α) {n i : ℕ} (h : i < n) :
    (linspaceNoEnd a b n)[i]? = some (a + (b - a) * i / (n : α)) := by
  rw [linspaceNoEnd, List.getElem?_map, List.getElem?_range h]
  rfl

lemma getElem_zipWith_mul {l1 l2 : List α} {i : ℕ} {x y : α}
    (h1 : l1[i]? = some x) (h2 : l2[i]? = some y) :
    (List.zipWith (fun u v => u * v) l1 l2)[i]? = some (x * y) := by
  rw [List.getElem?_zipWith, h1, h2]

end LengthLemmas

/-! ### C7: the conform step always returns exactly the target length -/

/-- C7 (confirmed): for every source buffer of length `L > 0`, any source
sample rate and any target length `T ≥ 0`, the conform step — linear
resampling when the rates differ, then trim-or-pad — returns exactly `T`
samples. (The hypothesis `0 < L`, under which the claim is stated and
under which `np.interp` cannot raise, is in fact not needed for the
length invariant itself.) -/
theorem c7_conform_length (α : Type) [LinearOrderedField α] (data : List α)
    (sr sampleRate targetLen : ℕ) (h : 0 < data.length) :
    (conform data sr sampleRate targetLen).length = targetLen :=
  length_conform data sr sampleRate targetLen

/-- Witness for C7 at a concrete input: a 2-sample buffer at 22050 Hz
conformed to 5 samples at 44100 Hz. -/
theorem c7_conform_length_witness :
    (conform ([1, 2] : List ℚ) 22050 44100 5).length = 5 :=
  c7_conform_length ℚ [1, 2] 22050 44100 5 (by decide)

/-! ### C1: degenerate buffers in the encoder (code bug) -/

/-- C1 (code_bug evidence): the claim — and the spec — require the encoder
to succeed on a zero-peak buffer and emit all-zero PCM. The code instead
evaluates `np.max(np.abs([]))`, which raises `ValueError` on the empty
buffer, and divides by zero on a nonempty all-zero buffer (a NaN array
whose `np.int16` cast is undefined); both are modelled as `none`. The
spec-modelled encoder `encodePcmSpec` shows the claimed behaviour on the
same inputs. -/
theorem c1_degenerate_buffer_crashes :
    _write_wav ([] : List ℚ) 44100 = none ∧
    _write_wav ([0] : List ℚ) 44100 = none ∧
    encodePcmSpec ([] : List ℚ) = some [] ∧
    encodePcmSpec ([0] : List ℚ) = some [0] := by
  decide

/-! ### C5: the quantization formula (corrected: truncation, not rounding) -/

/-- C5 counterexample: on the buffer `[2, 1]` (peak 2) the code's
quantization yields `16383` for the second sample — `np.int16` truncates
`0.5 * 32767 = 16383.5` toward zero — while the claimed formula
`round(clamp(sample/peak, -1, 1) * 32767)` yields `16384`. -/
theorem c5_counterexample :
    encodePcm ([2, 1] : List ℚ) = some [32767, 16383] ∧
    encodePcmSpec ([2, 1] : List ℚ) = some [32767, 16384] := by
  have hmax : maxAbs ([2, 1] : List ℚ) = 2 := by decide
  have hfirst : ((2 : ℚ) / 2 * 32767) = 32767 := by norm_num
  have hsecond : ((1 : ℚ) / 2 * 32767) = 32767 / 2 := by norm_num
  have htrunc1 : truncToZero ((32767 : ℚ)) = 32767 := by
    unfold truncToZero
    rw [if_pos (by norm_num), Int.floor_eq_iff]
    constructor <;> norm_num
  have htrunc2 : truncToZero ((32767 : ℚ) / 2) = 16383 := by
    unfold truncToZero
    rw [if_pos (by norm_num), Int.floor_eq_iff]
    constructor <;> norm_num
  have hclamp1 : clampUnit ((2 : ℚ) / 2) = 1 := by
    unfold clampUnit
    rw [min_eq_right (by norm_num), max_eq_right (by norm_num)]
    norm_num
  have hclamp2 : clampUnit ((1 : ℚ) / 2) = 1 / 2 := by
    unfold clampUnit
    rw [min_eq_right (by norm_num), max_eq_right (by norm_num)]
  constructor
  · unfold encodePcm
    rw [if_neg (by decide), if_neg (by rw [hmax]; norm_num), hmax]
    simp only [List.map_cons, List.map_nil, hfirst, hsecond, htrunc1, htrunc2]
    decide
  · unfold encodePcmSpec
    rw [if_neg (by rw [hmax]; norm_num), hmax]
    simp only [List.map_cons, List.map_nil, hclamp1, hclamp2]
    have hr1 : round ((1 : ℚ) * 32767) = 32767 := by norm_num
    have hr2 : round ((1 : ℚ) / 2 * 32767) = 16384 := by
      rw [round_eq, Int.floor_eq_iff]
      constructor <;> norm_num
    rw [hr1, hr2]

/-- C5 (corrected): with a nonzero peak, every sample is quantized as
`truncToZero(clamp(sample/peak, -1, 1) * 32767)` — truncation toward zero
(the C cast `np.int16` performs), not round-to-nearest as claimed — and
serialized as signed 16-bit mono little-endian PCM after the fixed
header. The clamp is provably the identity here, since `peak` is the
buffer's own maximum. -/
theorem c5_quantization (α : Type) [LinearOrderedField α] [FloorRing α]
    (samples : List α) (r : ℕ) (h : maxAbs samples ≠ 0) :
    encodePcm samples =
      some (samples.map fun s => truncToZero (clampUnit (s / maxAbs samples) * 32767)) ∧
    _write_wav samples r =
      some (wavHeader r (2 * samples.length) ++
        ((samples.map fun s => truncToZero (clampUnit (s / maxAbs samples) * 32767)).map
          int16le).flatten) := by
  have hpcm : (samples.map fun s => toInt16 (truncToZero (s / maxAbs samples * 32767))) =
      samples.map fun s => truncToZero (clampUnit (s / maxAbs samples) * 32767) := by
    apply List.map_congr_left
    intro s hs
    have hpos : 0 < maxAbs samples := lt_of_le_of_ne (maxAbs_nonneg samples) (Ne.symm h)
    have h1 : |s / maxAbs samples| ≤ 1 := by
      rw [abs_div, abs_of_pos hpos, div_le_one hpos]
      exact le_maxAbs hs
    have hclamp : clampUnit (s / maxAbs samples) = s / maxAbs samples := by
      rcases abs_le.1 h1 with ⟨hl, hr⟩
      unfold clampUnit
      rw [min_eq_right hr, max_eq_right hl]
    rw [hclamp, (pcm_val_eq hs h).1]
  refine ⟨by rw [encodePcm_eq h, hpcm], ?_⟩
  unfold _write_wav
  rw [encodePcm_eq h, Option.map_some', hpcm, List.length_map]

/-- Witness for C5 at the concrete buffer `[2, 1]`. -/
theorem c5_quantization_witness :
    encodePcm ([2, 1] : List ℚ) =
      some (([2, 1] : List ℚ).map fun s =>
        truncToZero (clampUnit (s / maxAbs ([2, 1] : List ℚ)) * 32767)) ∧
    _write_wav ([2, 1] : List ℚ) 44100 =
      some (wavHeader 44100 (2 * ([2, 1] : List ℚ).length) ++
        ((([2, 1] : List ℚ).map fun s =>
          truncToZero (clampUnit (s / maxAbs ([2, 1] : List ℚ)) * 32767)).map
            int16le).flatten) :=
  c5_quantization ℚ [2, 1] 44100 (by decide)

/-! ### C10: scale invariance and full-scale normalization -/

/-- C10 (confirmed): for a buffer that is not identically zero, the
encoder's output is invariant under scaling by any positive constant,
and the emitted PCM attains peak magnitude exactly 32767 (every value is
bounded by 32767 and some value reaches it) — so the bytes carry the
waveform's shape, not its absolute amplitude. -/
theorem c10_scale_invariance (α : Type) [LinearOrderedField α] [FloorRing α]
    (samples : List α) (c : α) (r : ℕ) (hc : 0 < c) (h : ∃ s ∈ samples, s ≠ 0) :
    _write_wav (samples.map fun s => c * s) r = _write_wav samples r ∧
    ∃ pcm, encodePcm samples = some pcm ∧
      (∀ v ∈ pcm, |v| ≤ 32767) ∧ ∃ v ∈ pcm, |v| = 32767 := by
  obtain ⟨s0, hs0, hs0ne⟩ := h
  have hpos : 0 < maxAbs samples := maxAbs_pos hs0 hs0ne
  have hne : maxAbs samples ≠ 0 := ne_of_gt hpos
  have hscale : maxAbs (samples.map fun s => c * s) = c * maxAbs samples :=
    maxAbs_map_mul (le_of_lt hc) samples
  have hne2 : maxAbs (samples.map fun s => c * s) ≠ 0 := by
    rw [hscale]
    exact mul_ne_zero (ne_of_gt hc) hne
  have hmapeq : ((samples.map fun s => c * s).map fun s =>
        toInt16 (truncToZero (s / maxAbs (samples.map fun s => c * s) * 32767))) =
      samples.map fun s => toInt16 (truncToZero (s / maxAbs samples * 32767)) := by
    rw [List.map_map]
    apply List.map_congr_left
    intro s hs
    show toInt16 (truncToZero (c * s / maxAbs (samples.map fun s => c * s) * 32767)) = _
    rw [hscale, mul_div_mul_left s (maxAbs samples) (ne_of_gt hc)]
  constructor
  · unfold _write_wav
    rw [encodePcm_eq hne, encodePcm_eq hne2, Option.map_some', Option.map_some', hmapeq]
  · refine ⟨_, encodePcm_eq hne, ?_, ?_⟩
    · intro v hv
      rcases List.mem_map.1 hv with ⟨s, hs, rfl⟩
      rw [(pcm_val_eq hs hne).1]
      exact (pcm_val_eq hs hne).2
    · obtain ⟨a, ha, hmax⟩ := maxAbs_attained (maxAbs_ne_zero_nonempty hne)
      refine ⟨toInt16 (truncToZero (a / maxAbs samples * 32767)),
        List.mem_map_of_mem _ ha, ?_⟩
      rw [(pcm_val_eq ha hne).1]
      have hcast : ((32767 : ℤ) : α) = (32767 : α) := by push_cast; ring
      rcases abs_choice a with hca | hca
      · have haeq : a = maxAbs samples := by rw [hmax, hca]
        rw [haeq, div_self hne, one_mul, ← hcast, truncToZero_intCast]
        decide
      · have haeq : a = -maxAbs samples := by
          have h2 : maxAbs samples = -a := by rw [hmax, hca]
          rw [h2, neg_neg]
        rw [haeq, neg_div, div_self hne, neg_one_mul]
        have hneg : (-(32767 : α)) = (((-32767 : ℤ)) : α) := by push_cast; ring
        rw [hneg, truncToZero_intCast]
        decide

/-- Witness for C10 at the concrete buffer `[1, -3]` scaled by 2. -/
theorem c10_scale_invariance_witness :
    _write_wav (([1, -3] : List ℚ).map fun s => 2 * s) 8000 =
      _write_wav ([1, -3] : List ℚ) 8000 ∧
    ∃ pcm, encodePcm ([1, -3] : List ℚ) = some pcm ∧
      (∀ v ∈ pcm, |v| ≤ 32767) ∧ ∃ v ∈ pcm, |v| = 32767 :=
  c10_scale_invariance ℚ [1, -3] 2 8000 (by norm_num) ⟨1, by decide, by decide⟩

/-! ### Helper lemmas about note-token parsing -/

lemma parseNote_cons (letter : Char) (rest : List Char) :
    parseNote (String.mk (letter :: rest)) =
      match (if (splitAccOct rest).2 = [] then some (4 : ℤ)
             else pyIntOfChars (splitAccOct rest).2),
          note_map letter with
      | some octave, some s =>
        some ((if (splitAccOct rest).1 = some '♯' then s + 1
               else if (splitAccOct rest).1 = some '♭' then s - 1 else s) +
          (octave - 4) * 12 - 9)
      | _, _ => none := rfl

lemma parseNote_split (letter : Char) (rest : List Char) (a1 : Option Char)
    (a2 : List Char) (hs : splitAccOct rest = (a1, a2)) :
    parseNote (String.mk (letter :: rest)) =
      match (if a2 = [] then some (4 : ℤ) else pyIntOfChars a2),
          note_map letter with
      | some octave, some s =>
        some ((if a1 = some '♯' then s + 1 else if a1 = some '♭' then s - 1 else s) +
          (octave - 4) * 12 - 9)
      | _, _ => none := by
  rw [parseNote_cons, hs]

lemma splitAccOct_append_nonacc (rest : List Char) (c : Char)
    (hc : ¬(c = '♯' ∨ c = '♭')) :
    splitAccOct (rest ++ [c]) = ((splitAccOct rest).1, (splitAccOct rest).2 ++ [c]) := by
  unfold splitAccOct
  rw [List.foldl_append, List.foldl_cons, List.foldl_nil, if_neg hc]

lemma isDigit_not_space {c : Char} (hc : c.isDigit = true) : isPySpace c = false := by
  unfold isPySpace
  by_contra h
  rw [Bool.not_eq_false, Bool.or_eq_true, Bool.or_eq_true, Bool.or_eq_true,
    Bool.or_eq_true, Bool.or_eq_true] at h
  rcases h with ((((h1 | h2) | h3) | h4) | h5) | h6 <;>
    first
    | (obtain rfl := of_decide_eq_true h1; exact absurd hc (by decide))
    | (obtain rfl := of_decide_eq_true h2; exact absurd hc (by decide))
    | (obtain rfl := of_decide_eq_true h3; exact absurd hc (by decide))
    | (obtain rfl := of_decide_eq_true h4; exact absurd hc (by decide))
    | (obtain rfl := of_decide_eq_true h5; exact absurd hc (by decide))
    | (obtain rfl := of_decide_eq_true h6; exact absurd hc (by decide))

lemma pyIntOfChars_single {c : Char} (hc : c.isDigit = true) :
    pyIntOfChars [c] = some ((c.toNat - 48 : ℕ) : ℤ) := by
  have hstrip : stripSpaces [c] = [c] := by
    unfold stripSpaces
    rw [List.dropWhile_cons_of_neg (by rw [isDigit_not_space hc]; decide),
      List.reverse_cons, List.reverse_nil, List.nil_append,
      List.dropWhile_cons_of_neg (by rw [isDigit_not_space hc]; decide)]
    rfl
  have hplus : c ≠ '+' := by
    intro h
    subst h
    exact absurd hc (by decide)
  have hminus : c ≠ '-' := by
    intro h
    subst h
    exact absurd hc (by decide)
  unfold pyIntOfChars
  rw [hstrip]
  show (if c = '+' then _ else if c = '-' then _
    else (digitsUS (c :: [])).map fun n : ℕ => (n : ℤ)) = _
  rw [if_neg hplus, if_neg hminus]
  show Option.map (fun n : ℕ => (n : ℤ))
    (if c.isDigit = true then digitsUSCore (c.toNat - 48) [] else none) = _
  rw [if_pos hc]
  rfl

lemma isDigit_not_accidental {c : Char} (hc : c.isDigit = true) :
    ¬(c = '♯' ∨ c = '♭') := by
  intro hor
  rcases hor with rfl | rfl <;> exact absurd hc (by decide)

/-! ### C3: which note tokens fail to resolve (corrected) -/

/-- C3 counterexample: the token `Cx` has the recognized leading letter
`C`, yet resolution fails — `int("x")` raises `ValueError` instead of
falling back to the default octave 4 as the claim states. -/
theorem c3_counterexample :
    note_map 'C' = some 0 ∧ parseNote ("Cx") = none ∧
    _note_to_frequency ("Cx") = none := by
  refine ⟨rfl, by decide, ?_⟩
  unfold _note_to_frequency
  rw [show parseNote ("Cx") = none from (by decide)]
  rfl

/-- C3 (corrected): resolution of a nonempty token fails when the leading
letter is outside the seven recognized names, and also — contrary to the
claim's lenient-fallback reading — when the octave part is present but is
not accepted by Python's `int()` (whose base-10 grammar strips
surrounding whitespace and allows one sign and underscore grouping, so
`C+5` resolves to octave 5 while `Cx` raises `ValueError`); the default
octave 4 applies only when the octave part is empty, in which case the
result is the accidental-adjusted semitone minus 9. The hypothesis
restricts the octave part to ASCII characters, the domain on which
`pyIntOfChars` is exactly `int()` — `int()` also accepts Unicode digits
and spaces, which this characterization does not cover. -/
theorem c3_resolution (letter : Char) (rest : List Char)
    (hascii : ∀ c ∈ (splitAccOct rest).2, c.toNat < 128) :
    (parseNote (String.mk (letter :: rest)) = none ↔
      note_map letter = none ∨
        ((splitAccOct rest).2 ≠ [] ∧ pyIntOfChars (splitAccOct rest).2 = none)) ∧
    ((splitAccOct rest).2 = [] →
      parseNote (String.mk (letter :: rest)) =
        (note_map letter).map fun s =>
          (if (splitAccOct rest).1 = some '♯' then s + 1
           else if (splitAccOct rest).1 = some '♭' then s - 1 else s) - 9) := by
  rw [parseNote_cons]
  constructor
  · by_cases h2 : (splitAccOct rest).2 = []
    · rw [if_pos h2]
      cases hm : note_map letter
      · simp [h2]
      · simp [h2]
    · rw [if_neg h2]
      cases hd : pyIntOfChars (splitAccOct rest).2
      · cases hm : note_map letter <;> simp [h2, hd]
      · cases hm : note_map letter <;> simp [h2, hd]
  · intro h2
    rw [if_pos h2]
    cases hm : note_map letter
    · rfl
    · rename_i s
      show some _ = some _
      congr 1
      ring

/-- Witness for C3's amended statement at the token `Cx`, whose octave
part is the ASCII character `x`. -/
theorem c3_resolution_witness :
    (parseNote (String.mk ('C' :: ['x'])) = none ↔
      note_map 'C' = none ∨
        ((splitAccOct ['x']).2 ≠ [] ∧ pyIntOfChars (splitAccOct ['x']).2 = none)) ∧
    ((splitAccOct ['x']).2 = [] →
      parseNote (String.mk ('C' :: ['x'])) =
        (note_map 'C').map fun s =>
          (if (splitAccOct ['x']).1 = some '♯' then s + 1
           else if (splitAccOct ['x']).1 = some '♭' then s - 1 else s) - 9) :=
  c3_resolution 'C' ['x'] (by decide)

/-! ### C4: the equal-temperament frequency formula (confirmed) -/

/-- C4 (confirmed): for every valid token — recognized letter, optional
sharp/flat, decimal octave digit or no octave (defaulting to 4) — the
resolved frequency is `440 * 2^((semitone + (octave - 4) * 12 - 9) / 12)`
with the semitone adjusted by the accidental; in particular `A4 ↦ 440`
and `A5 ↦ 880` exactly. -/
theorem c4_frequency (letter : Char) (s : ℤ) (acc : Option Char) (digit : Char)
    (hl : note_map letter = some s)
    (hacc : acc = none ∨ acc = some '♯' ∨ acc = some '♭')
    (hd : digit.isDigit = true) :
    _note_to_frequency (String.mk (letter :: (acc.toList ++ [digit]))) =
      some (440 * (2 : ℝ) ^
        ((((if acc = some '♯' then s + 1 else if acc = some '♭' then s - 1 else s) +
          (((digit.toNat - 48 : ℕ) : ℤ) - 4) * 12 - 9 : ℤ) : ℝ) / 12)) ∧
    _note_to_frequency (String.mk (letter :: acc.toList)) =
      some (440 * (2 : ℝ) ^
        ((((if acc = some '♯' then s + 1 else if acc = some '♭' then s - 1 else s) - 9
          : ℤ) : ℝ) / 12)) ∧
    _note_to_frequency ("A4") = some 440 ∧
    _note_to_frequency ("A5") = some 880 := by
  have hsplit0 : splitAccOct acc.toList = (acc, []) := by
    rcases hacc with rfl | rfl | rfl <;> rfl
  have hsplit : splitAccOct (acc.toList ++ [digit]) = (acc, [digit]) := by
    rw [splitAccOct_append_nonacc _ _ (isDigit_not_accidental hd), hsplit0]
    rfl
  refine ⟨?_, ?_, ?_, ?_⟩
  · unfold _note_to_frequency
    rw [parseNote_split letter _ acc [digit] hsplit]
    have hne : ([digit] : List Char) ≠ [] := by simp
    rw [if_neg hne, pyIntOfChars_single hd, hl]
    rfl
  · unfold _note_to_frequency
    rw [parseNote_split letter _ acc [] hsplit0, if_pos rfl, hl]
    rw [Option.map_some']
    have harg : (if acc = some '♯' then s + 1 else if acc = some '♭' then s - 1 else s) +
        ((4 : ℤ) - 4) * 12 - 9 =
        (if acc = some '♯' then s + 1 else if acc = some '♭' then s - 1 else s) - 9 := by
      ring
    rw [harg]
  · unfold _note_to_frequency
    rw [show parseNote ("A4") = some 0 from (by decide), Option.map_some']
    show some (440 * (2 : ℝ) ^ (((0 : ℤ) : ℝ) / 12)) = some 440
    rw [show ((((0 : ℤ) : ℝ) / 12 : ℝ)) = 0 by norm_num, Real.rpow_zero, mul_one]
  · unfold _note_to_frequency
    rw [show parseNote ("A5") = some 12 from (by decide), Option.map_some']
    show some (440 * (2 : ℝ) ^ (((12 : ℤ) : ℝ) / 12)) = some 880
    rw [show ((((12 : ℤ) : ℝ) / 12 : ℝ)) = 1 by norm_num, Real.rpow_one]
    norm_num

/-- Witness for C4 at the token `A4` built from its parts (letter `A`,
no accidental, octave digit `4`), whose frequency offset is 0. -/
theorem c4_frequency_witness :
    _note_to_frequency (String.mk ('A' :: (Option.toList (none : Option Char) ++ ['4']))) =
      some (440 * (2 : ℝ) ^
        ((((if (none : Option Char) = some '♯' then (9 : ℤ) + 1
            else if (none : Option Char) = some '♭' then 9 - 1 else 9) +
          ((('4'.toNat - 48 : ℕ) : ℤ) - 4) * 12 - 9 : ℤ) : ℝ) / 12)) ∧
    _note_to_frequency (String.mk ('A' :: Option.toList (none : Option Char))) =
      some (440 * (2 : ℝ) ^
        ((((if (none : Option Char) = some '♯' then (9 : ℤ) + 1
            else if (none : Option Char) = some '♭' then 9 - 1 else 9) - 9 : ℤ) : ℝ) / 12)) ∧
    _note_to_frequency ("A4") = some 440 ∧
    _note_to_frequency ("A5") = some 880 :=
  c4_frequency 'A' 9 none '4' rfl (Or.inl rfl) (by decide)

/-! ### Helper lemmas about synthesis -/

lemma numSamples_quarter : numSamples 44100 ((1 : ℝ) / 4) = 11025 := by
  unfold numSamples truncToZero
  rw [show ((44100 : ℕ) : ℝ) * (1 / 4) = ((11025 : ℕ) : ℝ) by push_cast; norm_num]
  rw [if_pos (by positivity), Int.floor_natCast, Int.toNat_ofNat]

lemma numSamples_one (r : ℕ) : numSamples r 1 = r := by
  unfold numSamples truncToZero
  rw [mul_one, if_pos (by positivity), Int.floor_natCast, Int.toNat_ofNat]

lemma drumSynthSegment_length (rng : ℕ → ℝ) (element : String) (dur : ℝ) (r : ℕ) :
    (drumSynthSegment rng element dur r).length = numSamples r dur := by
  unfold drumSynthSegment
  rw [List.length_zipWith]
  split <;> simp [length_linspaceNoEnd]

lemma drumSynthSegment_getElem (rng : ℕ → ℝ) (element : String) (dur : ℝ) (r : ℕ)
    {i : ℕ} (hi : i < numSamples r dur) :
    (drumSynthSegment rng element dur r)[i]? =
      some ((if element = "Hi‑hat" then rng i
        else Real.sin (2 * Real.pi * freq_map element * (dur * i / (numSamples r dur)))) *
        Real.exp (-5 * (dur * i / (numSamples r dur)))) := by
  have htl : (linspaceNoEnd (0 : ℝ) dur (numSamples r dur))[i]? =
      some (dur * i / (numSamples r dur)) := by
    rw [getElem_linspaceNoEnd _ _ hi]
    congr 1
    ring
  unfold drumSynthSegment
  apply getElem_zipWith_mul
  · by_cases hel : element = "Hi‑hat"
    · rw [if_pos hel, if_pos hel, List.getElem?_map, List.getElem?_range hi]
      rfl
    · rw [if_neg hel, if_neg hel, List.getElem?_map, htl]
      rfl
  · rw [List.getElem?_map, htl]
    rfl

lemma drumSynthTrack_length (rng : ℕ → ℕ → ℝ) (pattern : List String) (dur : ℝ)
    (r : ℕ) :
    (drumSynthTrack rng pattern dur r).length = pattern.length * numSamples r dur := by
  unfold drumSynthTrack
  rw [List.length_flatten, List.map_map]
  have hconst : (pattern.enum.map
      (List.length ∘ fun pe => drumSynthSegment (rng pe.1) pe.2 dur r)) =
      List.replicate pattern.enum.length (numSamples r dur) := by
    rw [← List.map_const']
    apply List.map_congr_left
    intro pe _
    exact drumSynthSegment_length _ _ _ _
  rw [hconst, List.sum_replicate, smul_eq_mul, List.enum_length]

lemma mem_drumSynthTrack_of_head (rng : ℕ → ℕ → ℝ) (e : String) (rest : List String)
    (dur : ℝ) (r : ℕ) {v : ℝ}
    (hv : v ∈ drumSynthSegment (rng 0) e dur r) :
    v ∈ drumSynthTrack rng (e :: rest) dur r := by
  unfold drumSynthTrack
  apply List.mem_flatten_of_mem _ hv
  have h0 : ((0, e) : ℕ × String) ∈ (e :: rest).enum := by
    rw [List.enum_cons]
    exact List.mem_cons_self _ _
  exact List.mem_map_of_mem _ h0

lemma freq_map_kick : freq_map ("Kick") = 60 := by
  unfold freq_map
  rw [if_pos rfl]

/-- The second sample of a synthesized Kick segment at 0.25 s per beat:
`sin(2π·60·(1/44100)) · exp(-5/44100)`, a strictly positive value — the
synthesized track is not silent. -/
lemma kick_snd_sample_pos (rng : ℕ → ℝ) :
    (drumSynthSegment rng ("Kick") ((1 : ℝ) / 4) 44100)[1]? =
      some (Real.sin (2 * Real.pi * 60 * ((1 : ℝ) / 4 * 1 / 11025)) *
        Real.exp (-5 * ((1 : ℝ) / 4 * 1 / 11025))) ∧
    0 < Real.sin (2 * Real.pi * 60 * ((1 : ℝ) / 4 * 1 / 11025)) *
      Real.exp (-5 * ((1 : ℝ) / 4 * 1 / 11025)) := by
  constructor
  · rw [drumSynthSegment_getElem rng ("Kick") ((1 : ℝ) / 4) 44100
      (by rw [numSamples_quarter]; norm_num)]
    rw [if_neg (by decide), freq_map_kick, numSamples_quarter]
    norm_num
  · apply mul_pos
    · have harg : 2 * Real.pi * 60 * ((1 : ℝ) / 4 * 1 / 11025) =
          Real.pi * (2 / 735) := by ring
      rw [harg]
      apply Real.sin_pos_of_pos_of_lt_pi
      · positivity
      · nlinarith [Real.pi_pos]
    · exact Real.exp_pos _

lemma drumSynthSegment_abs_le_one (rng : ℕ → ℝ) (element : String) (dur : ℝ) (r : ℕ)
    (hel : ¬element = "Hi‑hat") (hd : 0 ≤ dur) :
    ∀ v ∈ drumSynthSegment rng element dur r, |v| ≤ 1 := by
  intro v hv
  unfold drumSynthSegment at hv
  rw [if_neg hel] at hv
  rcases List.mem_iff_getElem?.1 hv with ⟨i, hvi⟩
  rcases List.getElem?_zipWith_eq_some.1 hvi with ⟨x, y, hx, hy, hxy⟩
  rw [List.getElem?_map] at hx hy
  rcases Option.map_eq_some'.1 hx with ⟨ti, hti, rfl⟩
  rcases Option.map_eq_some'.1 hy with ⟨tj, htj, rfl⟩
  have htij : ti = tj := by
    rw [hti] at htj
    exact Option.some_inj.1 htj
  have hilen : i < numSamples r dur := by
    have := (List.getElem?_eq_some.1 hti).1
    rwa [length_linspaceNoEnd] at this
  have hival : ti = 0 + (dur - 0) * i / ((numSamples r dur : ℕ) : ℝ) := by
    rw [getElem_linspaceNoEnd _ _ hilen] at hti
    exact (Option.some_inj.1 hti).symm
  have hnn : 0 ≤ ti := by
    rw [hival, zero_add, sub_zero]
    exact div_nonneg (mul_nonneg hd (by positivity)) (by positivity)
  rw [← hxy, ← htij]
  rw [abs_mul]
  apply mul_le_one₀ (Real.abs_sin_le_one _) (abs_nonneg _)
  rw [abs_of_pos (Real.exp_pos _)]
  rw [Real.exp_le_one_iff]
  nlinarith

lemma drumTrack_quarter_peak_pos (rng : ℕ → ℕ → ℝ) (rest : List String) :
    0 < maxAbs (drumSynthTrack rng (("Kick") :: rest) ((1 : ℝ) / 4) 44100) := by
  obtain ⟨hget, hpos⟩ := kick_snd_sample_pos (rng 0)
  exact maxAbs_pos
    (mem_drumSynthTrack_of_head rng _ rest _ 44100 (List.getElem?_mem hget))
    (ne_of_gt hpos)

lemma drumTrySegments_none {lookup : String → Option (List ℝ × ℕ)} {r tl : ℕ}
    {pattern : List String} (h : ∃ e ∈ pattern, lookup e = none) :
    drumTrySegments lookup r tl pattern = none := by
  induction pattern with
  | nil =>
    rcases h with ⟨e, he, _⟩
    cases he
  | cons e rest ih =>
    rcases h with ⟨e2, he2, hnone⟩
    rcases List.mem_cons.1 he2 with rfl | hmem
    · unfold drumTrySegments
      rw [hnone]
    · unfold drumTrySegments
      cases hl : lookup e with
      | none => rfl
      | some val =>
        obtain ⟨data, sr⟩ := val
        show (if data.length = 0 ∧ sr ≠ r then none
          else (drumTrySegments lookup r tl rest).map
            fun segs => conform data sr r tl :: segs) = none
        rw [ih ⟨e2, hmem, hnone⟩]
        split <;> rfl

lemma generate_drum_audio_fallback {lookup : String → Option (List ℝ × ℕ)}
    {rng : ℕ → ℕ → ℝ} {pattern : List String} {dur : ℝ}
    (h : ∃ e ∈ pattern, lookup e = none) :
    generate_drum_audio lookup rng pattern dur =
      _write_wav (drumSynthTrack rng pattern dur 44100) 44100 := by
  have hne : pattern ≠ [] := by
    rcases h with ⟨e, he, _⟩
    exact List.ne_nil_of_mem he
  unfold generate_drum_audio tryBranch
  rw [drumTrySegments_none h, Option.none_bind]
  show (if pattern = [] then none
    else _write_wav (drumSynthTrack rng pattern dur 44100) 44100) =
    _write_wav (drumSynthTrack rng pattern dur 44100) 44100
  rw [if_neg hne]

lemma drumSynthTrack_cons (rng : ℕ → ℕ → ℝ) (e : String) (rest : List String)
    (dur : ℝ) (r : ℕ) :
    drumSynthTrack rng (e :: rest) dur r =
      drumSynthSegment (rng 0) e dur r ++
        ((rest.enumFrom 1).map fun pe => drumSynthSegment (rng pe.1) pe.2 dur r).flatten := by
  unfold drumSynthTrack
  rw [List.enum_cons, List.map_cons, List.flatten_cons]

lemma drumTrack_head_zero (rng : ℕ → ℕ → ℝ) (rest : List String) :
    (drumSynthTrack rng (("Kick") :: rest) ((1 : ℝ) / 4) 44100)[0]? = some 0 := by
  rw [drumSynthTrack_cons]
  rw [List.getElem?_append_left
    (by rw [drumSynthSegment_length, numSamples_quarter]; norm_num)]
  rw [drumSynthSegment_getElem _ _ _ _ (by rw [numSamples_quarter]; norm_num)]
  rw [if_neg (by decide)]
  simp

lemma int16le_getElem_zero (z : ℤ) :
    (int16le z)[0]? = some ((z % 65536).toNat % 256) := by
  unfold int16le le2
  rw [List.getElem?_cons_zero]

/-- The byte at offset 44 of a successfully encoded buffer — the first
(low) byte of the first PCM sample. -/
lemma write_wav_byte44 {α : Type} [LinearOrderedField α] [FloorRing α]
    {l : List α} {s0 : α} (hl : l[0]? = some s0) (hpk : maxAbs l ≠ 0) :
    ∃ bs, _write_wav l 44100 = some bs ∧
      bs[44]? =
        some ((toInt16 (truncToZero (s0 / maxAbs l * 32767)) % 65536).toNat % 256) := by
  match l, hl with
  | a :: tail, hl =>
    have ha : a = s0 := by
      rw [List.getElem?_cons_zero] at hl
      exact Option.some_inj.1 hl
    subst ha
    refine ⟨_, by unfold _write_wav; rw [encodePcm_eq hpk, Option.map_some'], ?_⟩
    rw [List.getElem?_append_right (by rw [length_wavHeader])]
    rw [length_wavHeader]
    show ((((a :: tail).map fun s =>
      toInt16 (truncToZero (s / maxAbs (a :: tail) * 32767))).map int16le).flatten)[44 - 44]? =
      _
    rw [List.map_cons, List.map_cons, List.flatten_cons]
    rw [show (44 - 44 : ℕ) = 0 from rfl]
    rw [List.getElem?_append_left (by rw [length_int16le]; norm_num)]
    rw [int16le_getElem_zero]

/-! ### C2: per-event versus batch fallback (corrected) -/

/-- C2 counterexample: with the pattern `[Kick, Snare]`, a lookup that
has a sample for Kick and none for Snare, and 0.25 s per beat, the code's
output equals the all-synthesis encoding — Kick's available sample is
discarded — and differs (at byte 44, the first PCM byte) from the
encoding of the per-event assembly the claim requires, in which Kick's
segment is its conformed sample. -/
theorem c2_counterexample :
    (generate_drum_audio
        (fun e => if e = ("Kick") then some (([1, 1] : List ℝ), 44100) else none)
        (fun _ _ => 0) [("Kick"), ("Snare")] (1 / 4) =
      _write_wav (drumSynthTrack (fun _ _ => 0) [("Kick"), ("Snare")] (1 / 4) 44100)
        44100) ∧
    ((fun e => if e = ("Kick") then some (([1, 1] : List ℝ), 44100) else none)
        ("Kick") = some ([1, 1], 44100)) ∧
    _write_wav
        (conform ([1, 1] : List ℝ) 44100 44100 11025 ++
          drumSynthSegment (fun _ => 0) ("Snare") (1 / 4) 44100) 44100 ≠
      generate_drum_audio
        (fun e => if e = ("Kick") then some (([1, 1] : List ℝ), 44100) else none)
        (fun _ _ => 0) [("Kick"), ("Snare")] (1 / 4) := by
  have hfall : generate_drum_audio
      (fun e => if e = ("Kick") then some (([1, 1] : List ℝ), 44100) else none)
      (fun _ _ => 0) [("Kick"), ("Snare")] (1 / 4) =
      _write_wav (drumSynthTrack (fun _ _ => 0) [("Kick"), ("Snare")] (1 / 4) 44100)
        44100 :=
    generate_drum_audio_fallback
      ⟨("Snare"), List.mem_cons_of_mem _ (List.mem_cons_self _ _),
        by rw [if_neg (by decide)]⟩
  refine ⟨hfall, by simp, ?_⟩
  have hconf : conform ([1, 1] : List ℝ) 44100 44100 11025 =
      ([1, 1] : List ℝ) ++ List.replicate 11023 0 := by
    unfold conform
    rw [if_neg (by decide)]
    unfold padTrim
    rw [if_neg (by decide)]
    rfl
  rw [hconf]
  set snare := drumSynthSegment (fun _ => (0 : ℝ)) ("Snare") ((1 : ℝ) / 4) 44100 with hsnare
  set bufL := (([1, 1] : List ℝ) ++ List.replicate 11023 0) ++ snare with hbufL
  have hheadL : bufL[0]? = some 1 := by
    rw [hbufL]
    rw [List.getElem?_append_left
        (by rw [List.length_append, List.length_replicate]; norm_num),
      List.getElem?_append_left (by norm_num),
      List.getElem?_cons_zero]
  have hub : ∀ x ∈ bufL, |x| ≤ 1 := by
    intro x hx
    rcases List.mem_append.1 hx with hx1 | hx2
    · rcases List.mem_append.1 hx1 with hx3 | hx4
      · rcases List.mem_cons.1 hx3 with rfl | hx5
        · norm_num
        · rcases List.mem_cons.1 hx5 with rfl | hx6
          · norm_num
          · cases hx6
      · rw [List.eq_of_mem_replicate hx4]
        norm_num
    · exact drumSynthSegment_abs_le_one _ _ _ _ (by decide) (by norm_num) x hx2
  have hmem1 : (1 : ℝ) ∈ bufL :=
    List.mem_append_left _ (List.mem_append_left _ (List.mem_cons_self _ _))
  have hpk1 : maxAbs bufL = 1 :=
    le_antisymm (maxAbs_le (by norm_num) hub)
      (by simpa using le_maxAbs hmem1)
  obtain ⟨bsL, hL, hbL⟩ := write_wav_byte44 hheadL (by rw [hpk1]; norm_num)
  obtain ⟨bsR, hR, hbR⟩ := write_wav_byte44 (drumTrack_head_zero (fun _ _ => 0) [("Snare")])
    (ne_of_gt (drumTrack_quarter_peak_pos (fun _ _ => 0) [("Snare")]))
  have hvalL : bsL[44]? = some 255 := by
    rw [hbL, hpk1]
    rw [show ((1 : ℝ) / 1 * 32767) = (((32767 : ℤ) : ℝ)) by norm_num]
    rw [truncToZero_intCast]
    decide
  have hvalR : bsR[44]? = some 0 := by
    rw [hbR]
    rw [zero_div, zero_mul]
    rw [show truncToZero ((0 : ℝ)) = 0 by
      rw [show ((0 : ℝ)) = (((0 : ℤ) : ℝ)) by norm_num, truncToZero_intCast]]
    decide
  intro heq
  rw [hfall, hR] at heq
  rw [hL] at heq
  obtain rfl := Option.some_inj.1 heq
  rw [hvalL] at hvalR
  exact absurd (Option.some_inj.1 hvalR) (by decide)

/-- C2 (corrected): in the code, a single failed sample lookup makes the
entire pattern fall back to synthesis — the `try:` block wraps the whole
batch, so the decision is all-or-nothing rather than per event. The part
of the claim that survives: the failure is never fatal, the function
still returns the full synthesized track's encoding. -/
theorem c2_batch_fallback (lookup : String → Option (List ℝ × ℕ)) (rng : ℕ → ℕ → ℝ)
    (pattern : List String) (duration_per_beat : ℝ)
    (h : ∃ e ∈ pattern, lookup e = none) :
    generate_drum_audio lookup rng pattern duration_per_beat =
      _write_wav (drumSynthTrack rng pattern duration_per_beat 44100) 44100 :=
  generate_drum_audio_fallback h

/-- Witness for C2's amended statement: a one-event pattern whose lookup
fails falls back to the synthesized track. -/
theorem c2_batch_fallback_witness :
    generate_drum_audio (fun _ => none) (fun _ _ => 0) [("Kick")] 1 =
      _write_wav (drumSynthTrack (fun _ _ => 0) [("Kick")] 1 44100) 44100 :=
  c2_batch_fallback (fun _ => none) (fun _ _ => 0) [("Kick")] 1
    ⟨("Kick"), List.mem_cons_self _ _, rfl⟩

/-! ### C6: the shape of synthesized drum segments (confirmed) -/

/-- C6 (confirmed): in a synthesized drum segment, the i-th sample is the
i-th noise draw for the hi-hat class and `sin(2π f t_i)` for every other
class, multiplied — for every class alike — by the envelope
`exp(-5 t_i)` with `t_i = duration·i/n`; and melodic synthesis
(`_generate_sine_wave`) produces the bare sine with no envelope. -/
theorem c6_drum_synthesis (rng : ℕ → ℝ) (element : String) (frequency duration : ℝ)
    (sampleRate : ℕ) (i : ℕ) (hi : i < numSamples sampleRate duration) :
    (drumSynthSegment rng element duration sampleRate)[i]? =
      some ((if element = "Hi‑hat" then rng i
        else Real.sin (2 * Real.pi * freq_map element *
          (duration * i / (numSamples sampleRate duration)))) *
        Real.exp (-5 * (duration * i / (numSamples sampleRate duration)))) ∧
    (_generate_sine_wave frequency duration sampleRate)[i]? =
      some (Real.sin (2 * Real.pi * frequency *
        (duration * i / (numSamples sampleRate duration)))) := by
  refine ⟨drumSynthSegment_getElem rng element duration sampleRate hi, ?_⟩
  unfold _generate_sine_wave
  rw [List.getElem?_map, getElem_linspaceNoEnd _ _ hi, Option.map_some']
  exact congrArg (fun x => some (Real.sin x)) (by ring)

/-- Witness for C6 at element Kick, one second at 44100 Hz, sample 0. -/
theorem c6_drum_synthesis_witness :
    (drumSynthSegment (fun _ => 0) ("Kick") 1 44100)[0]? =
      some ((if ("Kick" : String) = "Hi‑hat" then (0 : ℝ)
        else Real.sin (2 * Real.pi * freq_map ("Kick") *
          (1 * ((0 : ℕ) : ℝ) / ((numSamples 44100 1 : ℕ) : ℝ)))) *
        Real.exp (-5 * (1 * ((0 : ℕ) : ℝ) / ((numSamples 44100 1 : ℕ) : ℝ)))) ∧
    (_generate_sine_wave 440 1 44100)[0]? =
      some (Real.sin (2 * Real.pi * 440 *
        (1 * ((0 : ℕ) : ℝ) / ((numSamples 44100 1 : ℕ) : ℝ)))) :=
  c6_drum_synthesis (fun _ => 0) ("Kick") 440 1 44100 0
    (by rw [numSamples_one]; norm_num)

/-! ### C8: two-run determinism (confirmed) -/

/-- C8 (confirmed): the core is deterministic as a two-run property. In
this embedding the module-level sample store (`get_sample`) and numpy's
global RNG enter as the explicit arguments `lookup` and `rng`; with those
fixed — the claim's "identical noise seed" — two calls on equal arguments
produce identical buffers and identical encoded bytes. -/
theorem c8_determinism (rng₁ rng₂ : ℕ → ℕ → ℝ)
    (lookup₁ lookup₂ : String → Option (List ℝ × ℕ))
    (pattern₁ pattern₂ : List String) (d₁ d₂ f₁ f₂ : ℝ) (buf₁ buf₂ : List ℝ)
    (r₁ r₂ : ℕ) (hrng : rng₁ = rng₂) (hlk : lookup₁ = lookup₂) (hp : pattern₁ = pattern₂)
    (hd : d₁ = d₂) (hf : f₁ = f₂) (hb : buf₁ = buf₂) (hr : r₁ = r₂) :
    drumSynthTrack rng₁ pattern₁ d₁ 44100 = drumSynthTrack rng₂ pattern₂ d₂ 44100 ∧
    _generate_sine_wave f₁ d₁ r₁ = _generate_sine_wave f₂ d₂ r₂ ∧
    _write_wav buf₁ r₁ = _write_wav buf₂ r₂ ∧
    generate_drum_audio lookup₁ rng₁ pattern₁ d₁ =
      generate_drum_audio lookup₂ rng₂ pattern₂ d₂ := by
  subst hrng hlk hp hd hf hb hr
  exact ⟨rfl, rfl, rfl, rfl⟩

/-- Witness for C8 at concrete arguments. -/
theorem c8_determinism_witness :
    drumSynthTrack (fun _ _ => 0) [("Kick")] 1 44100 =
      drumSynthTrack (fun _ _ => 0) [("Kick")] 1 44100 ∧
    _generate_sine_wave 440 1 44100 = _generate_sine_wave 440 1 44100 ∧
    _write_wav ([1] : List ℝ) 44100 = _write_wav ([1] : List ℝ) 44100 ∧
    generate_drum_audio (fun _ => none) (fun _ _ => 0) [("Kick")] 1 =
      generate_drum_audio (fun _ => none) (fun _ _ => 0) [("Kick")] 1 :=
  c8_determinism (fun _ _ => 0) (fun _ _ => 0) (fun _ => none) (fun _ => none)
    [("Kick")] [("Kick")] 1 1 440 440 [1] [1] 44100 44100 rfl rfl rfl rfl rfl rfl rfl

/-! ### C9: the end-to-end eight-beat scenario (confirmed) -/

/-- C9 (confirmed): for the eight-event pattern
`[Kick, Snare, Hi-hat, Kick, Snare, Hi-hat, Kick, Snare]` at 0.25 s per
beat and 44100 Hz with no external samples, the assembled waveform has
exactly `8 * 11025 = 88200` samples, and the encoder emits the fixed
44-byte header followed by a PCM payload of exactly 176400 bytes. -/
theorem c9_end_to_end (rng : ℕ → ℕ → ℝ) :
    (drumSynthTrack rng
      [("Kick"), ("Snare"), ("Hi-hat"), ("Kick"), ("Snare"), ("Hi-hat"), ("Kick"),
        ("Snare")] ((1 : ℝ) / 4) 44100).length = 88200 ∧
    ∃ pcm bs,
      encodePcm (drumSynthTrack rng
        [("Kick"), ("Snare"), ("Hi-hat"), ("Kick"), ("Snare"), ("Hi-hat"), ("Kick"),
          ("Snare")] ((1 : ℝ) / 4) 44100) = some pcm ∧
      generate_drum_audio (fun _ => none) rng
        [("Kick"), ("Snare"), ("Hi-hat"), ("Kick"), ("Snare"), ("Hi-hat"), ("Kick"),
          ("Snare")] ((1 : ℝ) / 4) = some bs ∧
      bs = wavHeader 44100 (2 * pcm.length) ++ (pcm.map int16le).flatten ∧
      pcm.length = 88200 ∧
      ((pcm.map int16le).flatten).length = 176400 ∧
      bs.length = 44 + 176400 := by
  have hlen : (drumSynthTrack rng
      [("Kick"), ("Snare"), ("Hi-hat"), ("Kick"), ("Snare"), ("Hi-hat"), ("Kick"),
        ("Snare")] ((1 : ℝ) / 4) 44100).length = 88200 := by
    rw [drumSynthTrack_length, numSamples_quarter]
    rfl
  have hpk : 0 < maxAbs (drumSynthTrack rng
      [("Kick"), ("Snare"), ("Hi-hat"), ("Kick"), ("Snare"), ("Hi-hat"), ("Kick"),
        ("Snare")] ((1 : ℝ) / 4) 44100) :=
    drumTrack_quarter_peak_pos rng _
  have hfall := @generate_drum_audio_fallback (fun _ => none) rng
    [("Kick"), ("Snare"), ("Hi-hat"), ("Kick"), ("Snare"), ("Hi-hat"), ("Kick"),
      ("Snare")] ((1 : ℝ) / 4)
    ⟨("Kick"), List.mem_cons_self _ _, rfl⟩
  have henc := encodePcm_eq (ne_of_gt hpk)
  refine ⟨hlen, _, _, henc, ?_, rfl, ?_, ?_, ?_⟩
  · rw [hfall]
    unfold _write_wav
    rw [henc, Option.map_some']
  · rw [List.length_map]
    exact hlen
  · rw [length_flatten_map_int16le, List.length_map, hlen]
  · rw [List.length_append, length_wavHeader, length_flatten_map_int16le,
      List.length_map, hlen]

end SoundLab
